import Mathlib

/-!
# Verification of the "generate random variables from scratch" core

Shallow embedding of the pseudo-random engine and distribution samplers of
`src/Intro_Hypothesis_Testing.ipynb` (functions `pseudo_uniform_bad`,
`pseudo_uniform_good`, `pseudo_uniform`, `pseudo_bernoulli`, `pseudo_binomial`,
`pseudo_normal`, `pseudo_exp`, `pseudo_poisson`).

Modelling conventions:
* Python integers are `Int`; Python `%` with a positive right operand agrees
  with `Int.emod` (both return a value in `[0, modulus)`), so `%` on `Int`
  embeds the source's `%`.
* The float values `x/mod` and the arithmetic on them are idealised as exact
  rationals `ℚ`.
* A Python exception is an `Except Err` failure.  The only exception the
  embedded code can actually raise is an out-of-bounds indexing error
  (`IndexError` from `U[0] = x/mod` on an empty `np.zeros(0)` buffer, or from
  `U[i]` past the end of the draw buffer in the Poisson loop).
* The clock-based seeding (`time.perf_counter()` fractional part) of the
  wrapping samplers is made explicit: each sampler takes the seed(s) the clock
  would have produced as parameters, one per freshly seeded engine run,
  matching the source's one-fresh-seed-per-call structure.
* The transcendental float functions `np.exp`, `np.log`, `np.sqrt`,
  `np.cos(2*np.pi*_)` have no exact rational counterpart; where a sampler uses
  one, it is abstracted as a parameter (a rational-valued function on the
  rational idealisation of its finite arguments, or a rational threshold for
  the fixed value `np.exp(-alpha)`), and the IEEE special values produced at
  the boundary of `log`'s domain are modelled explicitly by the type `FVal`.
-/

/-- The runtime errors the embedded notebook code can raise: the only one
reachable is a NumPy `IndexError` (out-of-bounds element access/assignment). -/
inductive Err where
  | indexError : Err
deriving DecidableEq, Repr

/-- Propositional equality of `Except` values is decidable componentwise;
this lets concrete runs of the embedded samplers be checked by `decide`. -/
instance exceptDecEq {ε α : Type} [DecidableEq ε] [DecidableEq α] :
    DecidableEq (Except ε α) := fun x y =>
  match x, y with
  | .ok a, .ok b =>
      if h : a = b then .isTrue (by rw [h]) else .isFalse (by simp [h])
  | .error a, .error b =>
      if h : a = b then .isTrue (by rw [h]) else .isFalse (by simp [h])
  | .ok _, .error _ => .isFalse (by simp)
  | .error _, .ok _ => .isFalse (by simp)

/-- One step of the linear congruential recurrence of `pseudo_uniform_good` /
`pseudo_uniform_bad`: `x ← (x*mult + 1) % mod`. -/
def lcg_step (mult modulus x : Int) : Int :=
  (x * mult + 1) % modulus

/-- The internal state sequence of the engine: `lcg_seq mult modulus x0 i` is
the state after `i` further applications of the recurrence to `x0`. -/
def lcg_seq (mult modulus x0 : Int) : Nat → Int
  | 0 => x0
  | i + 1 => lcg_step mult modulus (lcg_seq mult modulus x0 i)

/-- Embeds `pseudo_uniform_good` (and, at other parameter values,
`pseudo_uniform_bad` — the two bodies are textually identical):

```
U = np.zeros(size)
x = (seed*mult+1)%mod
U[0] = x/mod
for i in range(1,size):
    x = (x*mult+1)%mod
    U[i] = x/mod
return U
```

The write `U[0] = x/mod` is unconditional, so `size = 0` raises `IndexError`
(assignment at index 0 of an empty array).  Otherwise entry `i` of the result
is the `i`-th state divided by the modulus, where state 0 is
`(seed*mult+1) % mod` and each later state is `(x*mult+1) % mod` of its
predecessor.

This embedding is faithful on the domain `mod > 0`, the invariant of every
`GeneratorParameters` and the domain on which the claims below are settled:
there Python's `%` agrees with `Int.emod` and no exception other than the
`IndexError` above can arise.  (At `mod = 0` the source would instead raise
`ZeroDivisionError` at `(seed*mult+1)%mod` itself, before the buffer write —
a path this model does not represent.) -/
def pseudo_uniform_good (mult modulus seed : Int) (size : Nat) :
    Except Err (List ℚ) :=
  if size = 0 then .error .indexError
  else .ok <| (List.range size).map fun i =>
    ((lcg_seq mult modulus (lcg_step mult modulus seed) i : ℚ)) / (modulus : ℚ)

/-- Default multiplier of `pseudo_uniform_good`. -/
def GOOD_MULT : Int := 16807

/-- Default modulus of `pseudo_uniform_good`: `(2**31)-1`. -/
def GOOD_MOD : Int := 2 ^ 31 - 1

/-- Embeds `pseudo_uniform`:
`return low+(high-low)*pseudo_uniform_good(seed=seed,size=size)`
(with `pseudo_uniform_good`'s default `mult`/`mod`). -/
def pseudo_uniform (low high : ℚ) (seed : Int) (size : Nat) :
    Except Err (List ℚ) :=
  (pseudo_uniform_good GOOD_MULT GOOD_MOD seed size).map
    (List.map fun u => low + (high - low) * u)

/-- Embeds `pseudo_bernoulli`: draw `size` uniforms on `[0,1)` with a freshly
seeded engine (the clock seed is the explicit `seed` argument), output `1`
where the draw is `≤ p`, else `0` (`(B<=p).astype(int)`). -/
def pseudo_bernoulli (p : ℚ) (seed : Int) (size : Nat) :
    Except Err (List Int) :=
  (pseudo_uniform 0 1 seed size).map
    (List.map fun b => if b ≤ p then (1 : Int) else 0)

/-- Embeds `pseudo_binomial`: for each of the `size` outcomes (one entry of
`seeds`, the clock seed of that iteration), draw `n` uniforms and sum the
indicator `U ≤ p` (`np.sum((U <= p).astype(int))`). -/
def pseudo_binomial (n : Nat) (p : ℚ) : List Int → Except Err (List Int)
  | [] => .ok []
  | seed :: rest => do
      let U ← pseudo_uniform 0 1 seed n
      let y := (U.map fun u => if u ≤ p then (1 : Int) else 0).sum
      let tail ← pseudo_binomial n p rest
      .ok (y :: tail)

/-- Embeds the inner `while` loop of `pseudo_poisson`:

```
X,P,i = 0,1,0
while P >= np.exp(-alpha):
    P = U[i]*P
    X+=1
    i+=1
```

`thr` stands for the float value `np.exp(-alpha)`; the unread draws of `U`
play the role of the indices from `i` on, so `U[i]` on an exhausted buffer is
the `IndexError` case. -/
def poisson_loop (thr : ℚ) : List ℚ → ℚ → Nat → Except Err Nat
  | [], P, X => if P < thr then .ok X else .error .indexError
  | u :: rest, P, X =>
    if P < thr then .ok X else poisson_loop thr rest (u * P) (X + 1)

/-- Embeds `pseudo_poisson`: for each of the `size` outcomes (one entry of
`seeds`, the clock seed of that iteration), draw `5*alpha` uniforms with a
freshly seeded engine and run the product-of-uniforms loop.  The threshold
`np.exp(-alpha)` is abstracted as the rational `thr`; for `alpha > 0` the
float `np.exp(-alpha)` lies in `(0, 1)`, which hypotheses on `thr` encode. -/
def pseudo_poisson (alpha : Nat) (thr : ℚ) : List Int → Except Err (List Nat)
  | [] => .ok []
  | seed :: rest => do
      let U ← pseudo_uniform 0 1 seed (5 * alpha)
      let X ← poisson_loop thr U 1 0
      let tail ← pseudo_poisson alpha thr rest
      .ok (X :: tail)

/-- An IEEE-style extended value: the possible results of the float
computations in `pseudo_normal` / `pseudo_exp`, keeping track of the
non-finite values (`inf`, `-inf`, `nan`) that arise when a logarithm is fed a
boundary input. A finite value is idealised as a rational. -/
inductive FVal where
  | fin (q : ℚ)
  | posInf
  | negInf
  | nan
deriving DecidableEq, Repr

/-- Whether an `FVal` is a finite number (not `inf`, `-inf`, or `nan`). -/
def FVal.finite : FVal → Bool
  | .fin _ => true
  | _ => false

/-- IEEE multiplication of a finite float `c` by an extended value:
`c * ±inf` is `±inf` by sign, `0 * ±inf` is `nan`, `c * nan` is `nan`. -/
def FVal.smul (c : ℚ) : FVal → FVal
  | .fin q => .fin (c * q)
  | .posInf => if 0 < c then .posInf else if c < 0 then .negInf else .nan
  | .negInf => if 0 < c then .negInf else if c < 0 then .posInf else .nan
  | .nan => .nan

/-- IEEE multiplication of two extended values (only the combinations the
samplers produce matter, but all are defined): infinities multiply by sign,
`0 * ±inf` is `nan`, `nan` absorbs. -/
def FVal.mul : FVal → FVal → FVal
  | .fin a, v => FVal.smul a v
  | .posInf, .fin b => if 0 < b then .posInf else if b < 0 then .negInf else .nan
  | .negInf, .fin b => if 0 < b then .negInf else if b < 0 then .posInf else .nan
  | .posInf, .posInf => .posInf
  | .posInf, .negInf => .negInf
  | .negInf, .posInf => .negInf
  | .negInf, .negInf => .posInf
  | .posInf, .nan => .nan
  | .negInf, .nan => .nan
  | .nan, _ => .nan

/-- IEEE addition of a finite float to an extended value: infinities and
`nan` absorb a finite summand. -/
def FVal.addFin : FVal → ℚ → FVal
  | .fin a, c => .fin (a + c)
  | .posInf, _ => .posInf
  | .negInf, _ => .negInf
  | .nan, _ => .nan

/-- `np.log` as applied to the (finite) engine outputs: `log` of a negative
number is `nan`, `log 0` is `-inf` (NumPy emits a RuntimeWarning and
continues), and `log` of a positive finite float is the finite float that
`logF` abstracts. -/
def npLog (logF : ℚ → ℚ) (q : ℚ) : FVal :=
  if q < 0 then .nan else if q = 0 then .negInf else .fin (logF q)

/-- `np.sqrt` on an extended value: `sqrt` of a negative finite number or of
`-inf` is `nan`, `sqrt inf = inf`, `sqrt` of a non-negative finite float is
the finite float that `sqrtF` abstracts, `nan` propagates. -/
def npSqrt (sqrtF : ℚ → ℚ) : FVal → FVal
  | .fin q => if q < 0 then .nan else .fin (sqrtF q)
  | .posInf => .posInf
  | .negInf => .nan
  | .nan => .nan

/-- Embeds `pseudo_normal`:

```
U1 = pseudo_uniform(seed=seed1,size=size)
U2 = pseudo_uniform(seed=seed2,size=size)
Z0 = np.sqrt(-2*np.log(U1))*np.cos(2*np.pi*U2)
Z0 = Z0*sigma+mu
return Z0
```

(The paired `Z1` using `sin` is computed and discarded by the source; it is
omitted here since it never reaches the caller.)  `seed1`, `seed2` are the
two clock seeds.  `logF`/`sqrtF` abstract the finite branches of
`np.log`/`np.sqrt`, and `cos2piF u` abstracts `np.cos(2*np.pi*u)` — a float
cosine of a finite argument, always finite.  There is no guard on `U1`: the
transform is applied directly to the raw engine draws. -/
def pseudo_normal (sqrtF logF cos2piF : ℚ → ℚ) (mu sigma : ℚ)
    (seed1 seed2 : Int) (size : Nat) : Except Err (List FVal) := do
  let U1 ← pseudo_uniform 0 1 seed1 size
  let U2 ← pseudo_uniform 0 1 seed2 size
  let Z0 := List.zipWith
    (fun u1 u2 =>
      (npSqrt sqrtF ((npLog logF u1).smul (-2))).mul (.fin (cos2piF u2)))
    U1 U2
  .ok (Z0.map fun z => (z.smul sigma).addFin mu)

/-- Embeds `pseudo_exp`:

```
U = pseudo_uniform(size=size,seed=seed)
X = -(1/lamb)*(np.log(1-U))
return X
```

`seed` is the clock seed; `logF` abstracts the finite branch of `np.log`.
There is no guard on `1 - U`: the logarithm is applied directly. -/
def pseudo_exp (logF : ℚ → ℚ) (lamb : ℚ) (seed : Int) (size : Nat) :
    Except Err (List FVal) :=
  (pseudo_uniform 0 1 seed size).map
    (List.map fun u => (npLog logF (1 - u)).smul (-(1 / lamb)))

/-! ## Helper lemmas about the engine -/

/-- Each recurrence step lands in `[0, modulus)` when the modulus is positive
(`Int.emod` with a positive modulus, matching Python `%`). -/
theorem lcg_step_mem (mult modulus x : Int) (hm : 0 < modulus) :
    0 ≤ lcg_step mult modulus x ∧ lcg_step mult modulus x < modulus :=
  ⟨Int.emod_nonneg _ (ne_of_gt hm), Int.emod_lt_of_pos _ hm⟩

/-- Every state of the engine's internal sequence (which starts from a
recurrence step) lies in `[0, modulus)`. -/
theorem lcg_seq_mem (mult modulus seed : Int) (hm : 0 < modulus) (i : Nat) :
    0 ≤ lcg_seq mult modulus (lcg_step mult modulus seed) i ∧
      lcg_seq mult modulus (lcg_step mult modulus seed) i < modulus := by
  cases i with
  | zero => exact lcg_step_mem mult modulus seed hm
  | succ j => exact lcg_step_mem mult modulus _ hm

/-- Each emitted engine value `x/modulus` lies in `[0, 1)`. -/
theorem engine_val_mem (mult modulus seed : Int) (hm : 0 < modulus) (i : Nat) :
    0 ≤ (lcg_seq mult modulus (lcg_step mult modulus seed) i : ℚ) / (modulus : ℚ) ∧
      (lcg_seq mult modulus (lcg_step mult modulus seed) i : ℚ) / (modulus : ℚ) < 1 := by
  obtain ⟨h0, h1⟩ := lcg_seq_mem mult modulus seed hm i
  have hmq : (0 : ℚ) < (modulus : ℚ) := by exact_mod_cast hm
  constructor
  · exact div_nonneg (by exact_mod_cast h0) (le_of_lt hmq)
  · rw [div_lt_one hmq]
    exact_mod_cast h1

/-- On a nonzero request the engine returns the mapped range list. -/
theorem pseudo_uniform_good_ok (mult modulus seed : Int) (size : Nat)
    (h : size ≠ 0) :
    pseudo_uniform_good mult modulus seed size =
      .ok ((List.range size).map fun i =>
        ((lcg_seq mult modulus (lcg_step mult modulus seed) i : ℚ)) /
          (modulus : ℚ)) := by
  simp [pseudo_uniform_good, h]

/-! ## C1: Engine output is the LCG sequence, scaled into [0,1) -/

/-- C1: for every `GeneratorParameters` with `modulus > 0` and every requested
count `n ≥ 1`, the engine returns a buffer of exactly `n` values whose entry 0
is `((seed*multiplier + 1) mod modulus)/modulus` and whose entry `i` is
`x_i/modulus` where `x_i = (x_{i-1}*multiplier + 1) mod modulus`, and every
entry lies in `[0, 1)`. -/
theorem engine_generates_lcg_sequence (mult modulus seed : Int) (n : Nat)
    (hm : 0 < modulus) (hn : 1 ≤ n) :
    ∃ l : List ℚ,
      pseudo_uniform_good mult modulus seed n = .ok l ∧
      l.length = n ∧
      lcg_step mult modulus seed = (seed * mult + 1) % modulus ∧
      (∀ x : Int, lcg_step mult modulus x = (x * mult + 1) % modulus) ∧
      lcg_seq mult modulus (lcg_step mult modulus seed) 0 =
        lcg_step mult modulus seed ∧
      (∀ i : Nat, lcg_seq mult modulus (lcg_step mult modulus seed) (i + 1) =
        (lcg_seq mult modulus (lcg_step mult modulus seed) i * mult + 1) %
          modulus) ∧
      (∀ i : Nat, i < n → l.get? i =
        some ((lcg_seq mult modulus (lcg_step mult modulus seed) i : ℚ) /
          (modulus : ℚ))) ∧
      (∀ u ∈ l, 0 ≤ u ∧ u < 1) := by
  refine ⟨_, pseudo_uniform_good_ok mult modulus seed n (by omega), ?_, rfl,
    fun _ => rfl, rfl, fun _ => rfl, ?_, ?_⟩
  · simp
  · intro i hi
    simp only [List.get?_eq_getElem?, List.getElem?_map]
    rw [List.getElem?_range hi]
    rfl
  · intro u hu
    obtain ⟨i, _, rfl⟩ := List.mem_map.mp hu
    exact engine_val_mem mult modulus seed hm i

/-- Witness for C1 at the notebook's "bad" configuration
`(mult, modulus, seed) = (5, 11, 3)` with `n = 3`. -/
theorem engine_generates_lcg_sequence_witness :
    ∃ l : List ℚ,
      pseudo_uniform_good 5 11 3 3 = .ok l ∧
      l.length = 3 ∧
      lcg_step 5 11 3 = (3 * 5 + 1) % 11 ∧
      (∀ x : Int, lcg_step 5 11 x = (x * 5 + 1) % 11) ∧
      lcg_seq 5 11 (lcg_step 5 11 3) 0 = lcg_step 5 11 3 ∧
      (∀ i : Nat, lcg_seq 5 11 (lcg_step 5 11 3) (i + 1) =
        (lcg_seq 5 11 (lcg_step 5 11 3) i * 5 + 1) % 11) ∧
      (∀ i : Nat, i < 3 → l.get? i =
        some ((lcg_seq 5 11 (lcg_step 5 11 3) i : ℚ) / (11 : ℚ))) ∧
      (∀ u ∈ l, 0 ≤ u ∧ u < 1) :=
  engine_generates_lcg_sequence 5 11 3 3 (by norm_num) (by norm_num)

/-! ## C5: the `n = 0` edge case (corrected) -/

/-- C5 counterexample: at the "good" configuration (a valid
`GeneratorParameters`, `modulus = 2^31 - 1 > 0`), requesting `count = 0` does
NOT return an empty buffer — the unconditional write `U[0] = x/mod` raises
`IndexError` on the empty `np.zeros(0)` array. -/
theorem engine_size_zero_counterexample :
    pseudo_uniform_good 16807 (2 ^ 31 - 1) 123456789 0 = .error .indexError :=
  rfl

/-- C5 amended: for every valid `GeneratorParameters` (`modulus > 0`, the
claim's own scope — with `modulus = 0` the source would instead die on the
`%` itself, a `ZeroDivisionError`, before ever touching the buffer), calling
the engine with requested count `n = 0` raises an index error (the
assignment of the first value fails on the empty `np.zeros(0)` buffer)
rather than returning an empty buffer. -/
theorem engine_size_zero_raises (mult modulus seed : Int)
    (_hm : 0 < modulus) :
    pseudo_uniform_good mult modulus seed 0 = .error .indexError :=
  rfl

/-- Witness for C5 (amended) at the "bad" configuration `(5, 11, 3)`. -/
theorem engine_size_zero_raises_witness :
    pseudo_uniform_good 5 11 3 0 = .error .indexError :=
  engine_size_zero_raises 5 11 3 (by norm_num)

/-! ## C8: determinism of the engine -/

/-- C8: for every fixed `(multiplier, modulus, seed)` triple and every count
`n`, two runs of the engine with identical arguments produce identical output
sequences — the engine is a pure function of its inputs (the embedded
`pseudo_uniform_good` reads no clock and no external state; the source's
clock only enters the *wrapping* samplers, as their seed argument). -/
theorem engine_deterministic (mult modulus seed : Int) (n : Nat)
    (r₁ r₂ : Except Err (List ℚ))
    (h₁ : r₁ = pseudo_uniform_good mult modulus seed n)
    (h₂ : r₂ = pseudo_uniform_good mult modulus seed n) :
    r₁ = r₂ :=
  h₁.trans h₂.symm

/-- Witness for C8: two runs at the "good" configuration with `n = 4`
coincide. -/
theorem engine_deterministic_witness :
    pseudo_uniform_good 16807 (2 ^ 31 - 1) 123456789 4 =
      pseudo_uniform_good 16807 (2 ^ 31 - 1) 123456789 4 :=
  engine_deterministic 16807 (2 ^ 31 - 1) 123456789 4 _ _ rfl rfl

/-! ## C10: seeds congruent modulo the modulus are indistinguishable -/

/-- C10: for every seed `s`, multiplier, modulus `m > 0` and count `n`, the
engine's output for seed `s` equals its output for seed `s % m`: the seed
only enters through the first update `(seed*mult + 1) % m`. -/
theorem engine_seed_mod_invariant (mult modulus seed : Int) (n : Nat)
    (_hm : 0 < modulus) :
    pseudo_uniform_good mult modulus seed n =
      pseudo_uniform_good mult modulus (seed % modulus) n := by
  have key : lcg_step mult modulus (seed % modulus) =
      lcg_step mult modulus seed := by
    unfold lcg_step
    conv_lhs => rw [Int.add_emod, Int.mul_emod,
      Int.emod_emod_of_dvd seed dvd_rfl]
    conv_rhs => rw [Int.add_emod, Int.mul_emod]
  simp [pseudo_uniform_good, key]

/-- Witness for C10: seeds `25` and `25 % 11 = 3` generate the same sequence
at the "bad" configuration. -/
theorem engine_seed_mod_invariant_witness :
    pseudo_uniform_good 5 11 25 3 = pseudo_uniform_good 5 11 (25 % 11) 3 :=
  engine_seed_mod_invariant 5 11 25 3 (by norm_num)

/-! ## C7: the uniform sampler is the affine rescale of the engine -/

/-- C7: for every `low ≤ high`, every seed and every count `n ≥ 1`, each value
returned by the uniform sampler equals `low + (high - low) * u` where `u` is
the corresponding engine output in `[0,1)`; hence each value lies in
`[low, high)` when `low < high`, and when `low = high` the call is accepted
(not an error) and returns the constant sequence of value `low`. -/
theorem uniform_affine_rescale (low high : ℚ) (seed : Int) (n : Nat)
    (_hlh : low ≤ high) (hn : 1 ≤ n) :
    ∃ us l : List ℚ,
      pseudo_uniform_good GOOD_MULT GOOD_MOD seed n = .ok us ∧
      pseudo_uniform low high seed n = .ok l ∧
      us.length = n ∧ l.length = n ∧
      (∀ i : Nat, i < n → ∃ u, us.get? i = some u ∧ 0 ≤ u ∧ u < 1 ∧
        l.get? i = some (low + (high - low) * u)) ∧
      (low < high → ∀ v ∈ l, low ≤ v ∧ v < high) ∧
      (low = high → ∀ v ∈ l, v = low) := by
  have hmod : (0 : Int) < GOOD_MOD := by norm_num [GOOD_MOD]
  have hok := pseudo_uniform_good_ok GOOD_MULT GOOD_MOD seed n (by omega)
  have hok2 : pseudo_uniform low high seed n =
      .ok (((List.range n).map fun i =>
          ((lcg_seq GOOD_MULT GOOD_MOD (lcg_step GOOD_MULT GOOD_MOD seed) i : ℚ)) /
            (GOOD_MOD : ℚ)).map fun u => low + (high - low) * u) := by
    rw [pseudo_uniform, hok]
    rfl
  refine ⟨_, _, hok, hok2, by simp, by simp, ?_, ?_, ?_⟩
  · intro i hi
    refine ⟨_, ?_, (engine_val_mem GOOD_MULT GOOD_MOD seed hmod i).1,
      (engine_val_mem GOOD_MULT GOOD_MOD seed hmod i).2, ?_⟩
    · simp only [List.get?_eq_getElem?, List.getElem?_map]
      rw [List.getElem?_range hi]
      rfl
    · simp only [List.get?_eq_getElem?, List.map_map, List.getElem?_map]
      rw [List.getElem?_range hi]
      rfl
  · intro hlt v hv
    simp only [List.map_map, List.mem_map] at hv
    obtain ⟨i, -, rfl⟩ := hv
    obtain ⟨hu0, hu1⟩ := engine_val_mem GOOD_MULT GOOD_MOD seed hmod i
    constructor
    · have : 0 ≤ (high - low) *
          ((lcg_seq GOOD_MULT GOOD_MOD (lcg_step GOOD_MULT GOOD_MOD seed) i : ℚ) /
            (GOOD_MOD : ℚ)) :=
        mul_nonneg (by linarith) hu0
      simp only [Function.comp_apply]
      linarith
    · have : (high - low) *
          ((lcg_seq GOOD_MULT GOOD_MOD (lcg_step GOOD_MULT GOOD_MOD seed) i : ℚ) /
            (GOOD_MOD : ℚ)) < (high - low) * 1 :=
        mul_lt_mul_of_pos_left hu1 (by linarith)
      simp only [Function.comp_apply]
      linarith
  · intro heq v hv
    simp only [List.map_map, List.mem_map] at hv
    obtain ⟨i, -, rfl⟩ := hv
    simp [heq]

/-- Witness for C7 at `low = 2`, `high = 5`, the default seed and `n = 1`. -/
theorem uniform_affine_rescale_witness :
    ∃ us l : List ℚ,
      pseudo_uniform_good GOOD_MULT GOOD_MOD 123456789 1 = .ok us ∧
      pseudo_uniform 2 5 123456789 1 = .ok l ∧
      us.length = 1 ∧ l.length = 1 ∧
      (∀ i : Nat, i < 1 → ∃ u, us.get? i = some u ∧ 0 ≤ u ∧ u < 1 ∧
        l.get? i = some (2 + (5 - 2) * u)) ∧
      ((2 : ℚ) < 5 → ∀ v ∈ l, 2 ≤ v ∧ v < 5) ∧
      ((2 : ℚ) = 5 → ∀ v ∈ l, v = 2) :=
  uniform_affine_rescale 2 5 123456789 1 (by norm_num) (by norm_num)

/-! ## C3: configuration validation (corrected — there is none) -/

/-- C3 counterexample: `generate_uniform` with `low = 5 > high = 2` returns a
numeric result (a buffer, not an exception of any kind), so no
`ConfigurationError` is raised at call entry. -/
theorem no_validation_counterexample :
    pseudo_uniform 5 2 123456789 1 =
      .ok [5 + (2 - 5) * (469049722 / 2147483647)] :=
  rfl

/-- C3 amended: the public samplers perform no configuration validation at
all.  With `low > high` the uniform sampler happily returns `n` values, each
in the reversed interval `(high, low]`; with `p ≥ 1` (e.g. `p = 1.5`) the
Bernoulli sampler returns the all-ones sequence; with `rate_alpha = 0` the
Poisson sampler does fail, but with an `IndexError` arising *inside* the
engine while drawing (the `size = 0` engine bug), not with a synchronous
configuration error before any draws. -/
theorem samplers_do_not_validate (low high p thr : ℚ) (seed : Int) (n : Nat)
    (seeds : List Int) (hlh : high < low) (hn : 1 ≤ n) (hp : 1 ≤ p)
    (hseeds : seeds ≠ []) :
    (∃ l : List ℚ, pseudo_uniform low high seed n = .ok l ∧ l.length = n ∧
      ∀ v ∈ l, high < v ∧ v ≤ low) ∧
    pseudo_bernoulli p seed n = .ok (List.replicate n 1) ∧
    pseudo_poisson 0 thr seeds = .error .indexError := by
  have hmod : (0 : Int) < GOOD_MOD := by norm_num [GOOD_MOD]
  have hok := pseudo_uniform_good_ok GOOD_MULT GOOD_MOD seed n (by omega)
  have hok2 : pseudo_uniform low high seed n =
      .ok (((List.range n).map fun i =>
          ((lcg_seq GOOD_MULT GOOD_MOD (lcg_step GOOD_MULT GOOD_MOD seed) i : ℚ)) /
            (GOOD_MOD : ℚ)).map fun u => low + (high - low) * u) := by
    rw [pseudo_uniform, hok]
    rfl
  refine ⟨⟨_, hok2, by simp, ?_⟩, ?_, ?_⟩
  · intro v hv
    simp only [List.map_map, List.mem_map] at hv
    obtain ⟨i, -, rfl⟩ := hv
    obtain ⟨hu0, hu1⟩ := engine_val_mem GOOD_MULT GOOD_MOD seed hmod i
    have hneg : high - low < 0 := by linarith
    constructor
    · have : (high - low) * 1 < (high - low) *
          ((lcg_seq GOOD_MULT GOOD_MOD (lcg_step GOOD_MULT GOOD_MOD seed) i : ℚ) /
            (GOOD_MOD : ℚ)) :=
        mul_lt_mul_of_neg_left hu1 hneg
      simp only [Function.comp_apply]
      linarith
    · have : (high - low) *
          ((lcg_seq GOOD_MULT GOOD_MOD (lcg_step GOOD_MULT GOOD_MOD seed) i : ℚ) /
            (GOOD_MOD : ℚ)) ≤ 0 :=
        mul_nonpos_of_nonpos_of_nonneg (le_of_lt hneg) hu0
      simp only [Function.comp_apply]
      linarith
  · rw [pseudo_bernoulli, pseudo_uniform, hok]
    simp only [Except.map, List.map_map]
    congr 1
    rw [List.eq_replicate_iff]
    refine ⟨by simp, ?_⟩
    intro b hb
    simp only [List.map_map, List.mem_map] at hb
    obtain ⟨i, -, rfl⟩ := hb
    obtain ⟨-, hu1⟩ := engine_val_mem GOOD_MULT GOOD_MOD seed hmod i
    have : (0 : ℚ) + (1 - 0) *
        ((lcg_seq GOOD_MULT GOOD_MOD (lcg_step GOOD_MULT GOOD_MOD seed) i : ℚ) /
          (GOOD_MOD : ℚ)) ≤ p := by linarith
    simp only [Function.comp_apply]
    rw [if_pos this]
  · obtain ⟨s, rest, rfl⟩ : ∃ s rest, seeds = s :: rest := by
      cases seeds with
      | nil => exact absurd rfl hseeds
      | cons s rest => exact ⟨s, rest, rfl⟩
    rfl

/-- Witness for C3 (amended) at `low = 5 > high = 2`, `p = 3/2`, one Poisson
seed. -/
theorem samplers_do_not_validate_witness :
    (∃ l : List ℚ, pseudo_uniform 5 2 42 2 = .ok l ∧ l.length = 2 ∧
      ∀ v ∈ l, (2 : ℚ) < v ∧ v ≤ 5) ∧
    pseudo_bernoulli (3 / 2) 42 2 = .ok (List.replicate 2 1) ∧
    pseudo_poisson 0 (1 / 2) [42] = .error .indexError :=
  samplers_do_not_validate 5 2 (3 / 2) (1 / 2) 42 2 [42] (by norm_num)
    (by norm_num) (by norm_num) (by simp)

/-! ## C6: Binomial with `trials = 0` (corrected) -/

/-- C6 counterexample: with `trials = 0`, `p = 3/4` and one requested outcome,
the Binomial sampler does not return `[0]` — it fails with an `IndexError`,
because its per-outcome engine call requests a length-0 buffer and the engine
cannot produce one. -/
theorem binomial_zero_trials_counterexample :
    pseudo_binomial 0 (3 / 4) [123456789] = .error .indexError :=
  rfl

/-- C6 amended: for `trials = 0`, every probability `p` and every nonempty
seed list (count `n ≥ 1`), the Binomial sampler fails with an `IndexError`
propagated from the engine's empty-buffer write, instead of returning a
sequence of zeros. -/
theorem binomial_zero_trials_raises (p : ℚ) (seeds : List Int)
    (hseeds : seeds ≠ []) :
    pseudo_binomial 0 p seeds = .error .indexError := by
  obtain ⟨s, rest, rfl⟩ : ∃ s rest, seeds = s :: rest := by
    cases seeds with
    | nil => exact absurd rfl hseeds
    | cons s rest => exact ⟨s, rest, rfl⟩
  rfl

/-- Witness for C6 (amended) at `p = 1/2` and two seeds. -/
theorem binomial_zero_trials_raises_witness :
    pseudo_binomial 0 (1 / 2) [5, 7] = .error .indexError :=
  binomial_zero_trials_raises (1 / 2) [5, 7] (by simp)

/-! ## The Poisson loop: least-crossing characterisation (C2, C9) -/

/-- A successful `pseudo_uniform` call returns exactly `size` values. -/
theorem pseudo_uniform_ok_length (low high : ℚ) (seed : Int) (size : Nat)
    (U : List ℚ) (h : pseudo_uniform low high seed size = .ok U) :
    U.length = size := by
  by_cases hs : size = 0
  · rw [hs, pseudo_uniform, pseudo_uniform_good] at h
    simp [Except.map] at h
  · rw [pseudo_uniform, pseudo_uniform_good_ok GOOD_MULT GOOD_MOD seed size hs] at h
    simp only [Except.map, Except.ok.injEq] at h
    rw [← h]
    simp

/-- General accumulator invariant of `pseudo_poisson`'s `while` loop: a
successful run returns `X` plus the least `d` such that the product of the
first `d` remaining draws, times the running product `P`, falls below the
threshold; that `d` never exceeds the number of remaining draws. -/
theorem poisson_loop_ok (thr : ℚ) :
    ∀ (U : List ℚ) (P : ℚ) (X R : Nat),
      poisson_loop thr U P X = .ok R →
      ∃ d : Nat, R = X + d ∧ d ≤ U.length ∧
        (U.take d).prod * P < thr ∧
        ∀ j < d, thr ≤ (U.take j).prod * P := by
  intro U
  induction U with
  | nil =>
    intro P X R h
    rw [poisson_loop] at h
    by_cases hP : P < thr
    · rw [if_pos hP] at h
      obtain rfl : X = R := by simpa using h
      exact ⟨0, by omega, by simp, by simpa using hP, by omega⟩
    · rw [if_neg hP] at h
      exact absurd h (by simp)
  | cons u rest ih =>
    intro P X R h
    rw [poisson_loop] at h
    by_cases hP : P < thr
    · rw [if_pos hP] at h
      obtain rfl : X = R := by simpa using h
      exact ⟨0, by omega, by simp, by simpa using hP, by omega⟩
    · rw [if_neg hP] at h
      obtain ⟨d', hR, hlen, hprod, hmin⟩ := ih (u * P) (X + 1) R h
      refine ⟨d' + 1, by omega, by simpa using hlen, ?_, ?_⟩
      · rw [List.take_succ_cons, List.prod_cons]
        calc u * (rest.take d').prod * P
            = (rest.take d').prod * (u * P) := by ring
          _ < thr := hprod
      · intro j hj
        cases j with
        | zero => simpa using not_lt.mp hP
        | succ j' =>
          rw [List.take_succ_cons, List.prod_cons]
          calc thr ≤ (rest.take j').prod * (u * P) := hmin j' (by omega)
            _ = u * (rest.take j').prod * P := by ring

/-- The loop as `pseudo_poisson` runs it (`P = 1`, `X = 0`): on success the
result is the least `k` such that the product of the first `k` draws falls
below the threshold, and it lies within the draw budget. -/
theorem poisson_loop_run (thr : ℚ) (U : List ℚ) (R : Nat)
    (h : poisson_loop thr U 1 0 = .ok R) :
    R ≤ U.length ∧ (U.take R).prod < thr ∧
      ∀ j < R, thr ≤ (U.take j).prod := by
  obtain ⟨d, hR, hlen, hprod, hmin⟩ := poisson_loop_ok thr U 1 0 R h
  obtain rfl : R = d := by omega
  rw [mul_one] at hprod
  refine ⟨hlen, hprod, fun j hj => ?_⟩
  have := hmin j hj
  rwa [mul_one] at this

/-- Structure of a successful `pseudo_poisson` run: one entry per seed, each
obtained by running the loop on that seed's `5*alpha` fresh draws. -/
theorem pseudo_poisson_ok_aux (alpha : Nat) (thr : ℚ) :
    ∀ (seeds : List Int) (l : List Nat),
      pseudo_poisson alpha thr seeds = .ok l →
      l.length = seeds.length ∧
      ∀ (i : Nat) (seed : Int), seeds.get? i = some seed →
        ∃ U X, pseudo_uniform 0 1 seed (5 * alpha) = .ok U ∧
          poisson_loop thr U 1 0 = .ok X ∧ l.get? i = some X := by
  intro seeds
  induction seeds with
  | nil =>
    intro l h
    rw [pseudo_poisson] at h
    obtain rfl : ([] : List Nat) = l := by simpa using h
    exact ⟨rfl, fun i seed h => by simp at h⟩
  | cons s rest ih =>
    intro l h
    rw [pseudo_poisson] at h
    cases hU : pseudo_uniform 0 1 s (5 * alpha) with
    | error e => rw [hU] at h; exact absurd h (by simp [Bind.bind, Except.bind])
    | ok U =>
      rw [hU] at h
      simp only [Bind.bind, Except.bind] at h
      cases hX : poisson_loop thr U 1 0 with
      | error e => rw [hX] at h; exact absurd h (by simp)
      | ok X =>
        rw [hX] at h
        cases hT : pseudo_poisson alpha thr rest with
        | error e => rw [hT] at h; exact absurd h (by simp)
        | ok tail =>
          rw [hT] at h
          obtain rfl : X :: tail = l := by simpa using h
          obtain ⟨hlen, hpt⟩ := ih tail hT
          refine ⟨by simpa using hlen, ?_⟩
          intro i seed hseed
          cases i with
          | zero =>
            obtain rfl : s = seed := by simpa using hseed
            exact ⟨U, X, hU, hX, rfl⟩
          | succ j =>
            obtain ⟨U', X', h1, h2, h3⟩ := hpt j seed (by simpa using hseed)
            exact ⟨U', X', h1, h2, by simpa using h3⟩

/-- C2: for every `alpha > 0` and count `n ≥ 1`, each of the `n` values
emitted by a successful Poisson run equals the counter the while loop
computes over that outcome's (at most `5*alpha`) fresh uniform draws:
namely the least `k` such that the product of the first `k` draws falls
below the threshold `np.exp(-alpha)` (abstracted as `thr`), which exists
within the `5*alpha` draw budget. -/
theorem poisson_counts_least_crossing (alpha : Nat) (thr : ℚ)
    (seeds : List Int) (l : List Nat)
    (_halpha : 1 ≤ alpha) (_hn : 1 ≤ seeds.length)
    (h : pseudo_poisson alpha thr seeds = .ok l) :
    l.length = seeds.length ∧
    ∀ (i : Nat) (seed : Int), seeds.get? i = some seed →
      ∃ U X, pseudo_uniform 0 1 seed (5 * alpha) = .ok U ∧
        U.length = 5 * alpha ∧ l.get? i = some X ∧ X ≤ 5 * alpha ∧
        (U.take X).prod < thr ∧ ∀ j < X, thr ≤ (U.take j).prod := by
  obtain ⟨hlen, hpt⟩ := pseudo_poisson_ok_aux alpha thr seeds l h
  refine ⟨hlen, fun i seed hseed => ?_⟩
  obtain ⟨U, X, hU, hX, hl⟩ := hpt i seed hseed
  have hUlen := pseudo_uniform_ok_length 0 1 seed (5 * alpha) U hU
  obtain ⟨hbud, hcross, hmin⟩ := poisson_loop_run thr U X hX
  exact ⟨U, X, hU, hUlen, hl, hUlen ▸ hbud, hcross, hmin⟩

/-- Witness for C2: `alpha = 1`, threshold `1/2` (a stand-in for
`e^{-1} ≈ 0.368`, any value in `(0,1)` exercises the loop), one seed; the
run returns `[1]` and the characterisation holds. -/
theorem poisson_counts_least_crossing_witness :
    ([1] : List Nat).length = ([123456789] : List Int).length ∧
    ∀ (i : Nat) (seed : Int), ([123456789] : List Int).get? i = some seed →
      ∃ U X, pseudo_uniform 0 1 seed (5 * 1) = .ok U ∧
        U.length = 5 * 1 ∧ ([1] : List Nat).get? i = some X ∧ X ≤ 5 * 1 ∧
        (U.take X).prod < 1 / 2 ∧ ∀ j < X, (1 : ℚ) / 2 ≤ (U.take j).prod :=
  poisson_counts_least_crossing 1 (1 / 2) [123456789] [1] (by norm_num)
    (by norm_num)
    (by norm_num [pseudo_poisson, pseudo_uniform, pseudo_uniform_good,
      List.range_succ, lcg_seq, lcg_step, GOOD_MULT, GOOD_MOD, poisson_loop,
      Bind.bind, Except.bind])

/-- C9 (implicit): for every threshold at most 1 (which `np.exp(-alpha)` is
whenever `alpha > 0`), every integer a successful Poisson run emits is at
least 1: the running product starts at `1 ≥ thr`, so the loop body runs at
least once per outcome. -/
theorem poisson_emits_positive (alpha : Nat) (thr : ℚ) (seeds : List Int)
    (l : List Nat) (hthr : thr ≤ 1)
    (h : pseudo_poisson alpha thr seeds = .ok l) :
    ∀ x ∈ l, 1 ≤ x := by
  obtain ⟨hlen, hpt⟩ := pseudo_poisson_ok_aux alpha thr seeds l h
  intro x hx
  obtain ⟨i, hi⟩ := List.mem_iff_get?.mp hx
  have hilen : i < seeds.length := by
    rw [← hlen]
    exact List.get?_eq_some.mp hi |>.1
  obtain ⟨seed, hseed⟩ : ∃ seed, seeds.get? i = some seed := by
    rw [List.get?_eq_get hilen]
    exact ⟨_, rfl⟩
  obtain ⟨U, X, hU, hX, hl⟩ := hpt i seed hseed
  have hxX : x = X := by rw [hi] at hl; simpa using hl
  subst hxX
  by_contra hx1
  obtain rfl : x = 0 := by omega
  obtain ⟨-, hcross, -⟩ := poisson_loop_run thr U 0 hX
  simp only [List.take_zero, List.prod_nil] at hcross
  linarith

/-- Witness for C9 at the same concrete Poisson run as C2's witness: the run
succeeds with output `[1]`, and the theorem applied to its (sole, concrete)
entry `1` confirms it is at least 1. -/
theorem poisson_emits_positive_witness :
    pseudo_poisson 1 (1 / 2) [123456789] = .ok [1] ∧ (1 : Nat) ≤ 1 := by
  have h : pseudo_poisson 1 (1 / 2) [123456789] = .ok [1] := by
    norm_num [pseudo_poisson, pseudo_uniform, pseudo_uniform_good,
      List.range_succ, lcg_seq, lcg_step, GOOD_MULT, GOOD_MOD, poisson_loop,
      Bind.bind, Except.bind]
  exact ⟨h, poisson_emits_positive 1 (1 / 2) [123456789] [1] (by norm_num) h
    1 (by simp)⟩

/-! ## C4: the log-boundary guard (corrected — there is none) -/

/-- A non-finite extended value stays non-finite under multiplication by a
finite scalar (it can only move between `inf`, `-inf` and `nan`). -/
theorem FVal.smul_not_finite (c : ℚ) (v : FVal) (h : v.finite = false) :
    (FVal.smul c v).finite = false := by
  cases v with
  | fin q => simp [FVal.finite] at h
  | posInf => simp only [FVal.smul]; split_ifs <;> rfl
  | negInf => simp only [FVal.smul]; split_ifs <;> rfl
  | nan => rfl

/-- A non-finite extended value stays non-finite after adding a finite
float. -/
theorem FVal.addFin_not_finite (v : FVal) (d : ℚ) (h : v.finite = false) :
    (FVal.addFin v d).finite = false := by
  cases v with
  | fin q => simp [FVal.finite] at h
  | posInf => rfl
  | negInf => rfl
  | nan => rfl

/-- `inf` times any finite float is non-finite (`±inf`, or `nan` when the
float is 0). -/
theorem FVal.posInf_mul_fin_not_finite (c : ℚ) :
    (FVal.mul .posInf (.fin c)).finite = false := by
  simp only [FVal.mul]
  split_ifs <;> rfl

/-- The Exponential sampler can never hit the log boundary: every engine draw
`u` satisfies `u < 1`, so `1 - u > 0` and `np.log(1-u)` is finite; hence all
values a successful `pseudo_exp` run returns are finite.  (The guard the spec
postulates would be dead code here.) -/
theorem pseudo_exp_all_finite (logF : ℚ → ℚ) (lamb : ℚ) (seed : Int)
    (size : Nat) (l : List FVal)
    (h : pseudo_exp logF lamb seed size = .ok l) :
    ∀ v ∈ l, v.finite = true := by
  by_cases hs : size = 0
  · rw [hs, pseudo_exp, pseudo_uniform, pseudo_uniform_good] at h
    simp [Except.map] at h
  · rw [pseudo_exp, pseudo_uniform,
      pseudo_uniform_good_ok GOOD_MULT GOOD_MOD seed size hs] at h
    simp only [Except.map, Except.ok.injEq] at h
    subst h
    intro v hv
    simp only [List.map_map, List.mem_map] at hv
    obtain ⟨i, -, rfl⟩ := hv
    have hmod : (0 : Int) < GOOD_MOD := by norm_num [GOOD_MOD]
    obtain ⟨h0, h1⟩ := engine_val_mem GOOD_MULT GOOD_MOD seed hmod i
    simp only [Function.comp_apply]
    have hpos : (0 : ℚ) < 1 - (0 + (1 - 0) *
        ((lcg_seq GOOD_MULT GOOD_MOD (lcg_step GOOD_MULT GOOD_MOD seed) i : ℚ) /
          (GOOD_MOD : ℚ))) := by linarith
    rw [npLog, if_neg (by linarith), if_neg (ne_of_gt hpos)]
    rfl

/-- The seed `739806647` is the modular inverse construction that drives the
first "good"-parameter engine state to exactly 0:
`(739806647 * 16807 + 1) % (2^31 - 1) = 0`. -/
theorem bad_seed_first_state_zero :
    lcg_step GOOD_MULT GOOD_MOD 739806647 = 0 := by
  decide

/-- C4 counterexample: at seed `739806647` the Normal sampler's first `U1`
draw is exactly 0; the source applies `np.log` to it with no guard, and the
call returns `ok [nan]` — a non-finite value is handed to the caller with no
resampling and no surfaced error.  (The abstract finite transforms are
instantiated with the zero function; the non-finiteness comes only from
`log 0 = -inf`, `sqrt(inf) = inf`, `inf * 0 = nan`.) -/
theorem normal_nonfinite_counterexample :
    pseudo_normal (fun _ => 0) (fun _ => 0) (fun _ => 0) 0 1
      739806647 123456789 1 = .ok [.nan] := by
  norm_num [pseudo_normal, pseudo_uniform, pseudo_uniform_good,
    List.range_succ, lcg_seq, lcg_step, GOOD_MULT, GOOD_MOD, npLog, npSqrt,
    FVal.smul, FVal.mul, FVal.addFin, Bind.bind, Except.bind]

/-- C4 amended: neither sampler guards the logarithm or resamples.  Whatever
finite-valued models of `np.sqrt`, `np.log`, `np.cos(2π·)` one takes, for the
seed `739806647` (whose first engine value is 0) the Normal sampler succeeds
and its first output is non-finite (`inf`, `-inf` or `nan`) — the transform
is applied directly to the raw zero draw, with no resample from the next
state and no surfaced error; the Exponential sampler, by contrast, can never
hit its claimed `U = 1` boundary (engine draws satisfy `u < 1`), and all its
outputs are finite. -/
theorem normal_feeds_zero_to_log_no_resample
    (sqrtF logF cos2piF logE : ℚ → ℚ) (mu sigma lamb : ℚ)
    (seed2 seedE : Int) (m sizeE : Nat) (lE : List FVal)
    (hexp : pseudo_exp logE lamb seedE sizeE = .ok lE) :
    (∃ l z, pseudo_normal sqrtF logF cos2piF mu sigma 739806647 seed2
        (m + 1) = .ok l ∧ l.get? 0 = some z ∧ z.finite = false) ∧
    (∀ v ∈ lE, v.finite = true) := by
  refine ⟨?_, pseudo_exp_all_finite logE lamb seedE sizeE lE hexp⟩
  have hok1 := pseudo_uniform_good_ok GOOD_MULT GOOD_MOD 739806647 (m + 1)
    (by omega)
  have hok2 := pseudo_uniform_good_ok GOOD_MULT GOOD_MOD seed2 (m + 1)
    (by omega)
  have hu1 : pseudo_uniform 0 1 739806647 (m + 1) =
      .ok (((List.range (m + 1)).map fun i =>
        ((lcg_seq GOOD_MULT GOOD_MOD
          (lcg_step GOOD_MULT GOOD_MOD 739806647) i : ℚ)) /
            (GOOD_MOD : ℚ)).map fun u => 0 + (1 - 0) * u) := by
    rw [pseudo_uniform, hok1]
    rfl
  have hu2 : pseudo_uniform 0 1 seed2 (m + 1) =
      .ok (((List.range (m + 1)).map fun i =>
        ((lcg_seq GOOD_MULT GOOD_MOD
          (lcg_step GOOD_MULT GOOD_MOD seed2) i : ℚ)) /
            (GOOD_MOD : ℚ)).map fun u => 0 + (1 - 0) * u) := by
    rw [pseudo_uniform, hok2]
    rfl
  rw [pseudo_normal, hu1, hu2]
  simp only [Bind.bind, Except.bind]
  have hzero : lcg_seq GOOD_MULT GOOD_MOD
      (lcg_step GOOD_MULT GOOD_MOD 739806647) 0 = 0 :=
    bad_seed_first_state_zero
  refine ⟨_,
    ((((npSqrt sqrtF ((npLog logF
        (0 + (1 - 0) * ((lcg_seq GOOD_MULT GOOD_MOD
          (lcg_step GOOD_MULT GOOD_MOD 739806647) 0 : ℚ) /
            (GOOD_MOD : ℚ)))).smul (-2))).mul
      (.fin (cos2piF (0 + (1 - 0) * ((lcg_seq GOOD_MULT GOOD_MOD
        (lcg_step GOOD_MULT GOOD_MOD seed2) 0 : ℚ) /
          (GOOD_MOD : ℚ)))))).smul sigma).addFin mu),
    rfl, ?_, ?_⟩
  · have hL1 : (((List.range (m + 1)).map fun i =>
        ((lcg_seq GOOD_MULT GOOD_MOD
          (lcg_step GOOD_MULT GOOD_MOD 739806647) i : ℚ)) /
            (GOOD_MOD : ℚ)).map fun u => 0 + (1 - 0) * u).get? 0 =
        some (0 + (1 - 0) * ((lcg_seq GOOD_MULT GOOD_MOD
          (lcg_step GOOD_MULT GOOD_MOD 739806647) 0 : ℚ) /
            (GOOD_MOD : ℚ))) := by
      simp only [List.get?_eq_getElem?, List.getElem?_map]
      rw [List.getElem?_range (by omega : 0 < m + 1)]
      rfl
    have hL2 : (((List.range (m + 1)).map fun i =>
        ((lcg_seq GOOD_MULT GOOD_MOD
          (lcg_step GOOD_MULT GOOD_MOD seed2) i : ℚ)) /
            (GOOD_MOD : ℚ)).map fun u => 0 + (1 - 0) * u).get? 0 =
        some (0 + (1 - 0) * ((lcg_seq GOOD_MULT GOOD_MOD
          (lcg_step GOOD_MULT GOOD_MOD seed2) 0 : ℚ) /
            (GOOD_MOD : ℚ))) := by
      simp only [List.get?_eq_getElem?, List.getElem?_map]
      rw [List.getElem?_range (by omega : 0 < m + 1)]
      rfl
    rw [List.get?_map, List.get?_zipWith', hL1, hL2]
    rfl
  · have h1 : npLog logF (0 + (1 - 0) * ((lcg_seq GOOD_MULT GOOD_MOD
        (lcg_step GOOD_MULT GOOD_MOD 739806647) 0 : ℚ) /
          (GOOD_MOD : ℚ))) = .negInf := by
      rw [hzero]
      norm_num [npLog]
    rw [h1]
    have h2 : FVal.smul (-2) FVal.negInf = FVal.posInf := by
      norm_num [FVal.smul]
    rw [h2]
    simp only [npSqrt]
    exact FVal.addFin_not_finite _ _ (FVal.smul_not_finite _ _
      (FVal.posInf_mul_fin_not_finite _))

/-- Witness for C4 (amended): zero-function models of the transcendentals,
`mu = 0`, `sigma = 1`, size 1, and a concrete Exponential run
`pseudo_exp` at `lamb = 1`, seed `123456789`, size 1, which returns
`[fin 0]`. -/
theorem normal_feeds_zero_to_log_no_resample_witness :
    (∃ l z, pseudo_normal (fun _ => 0) (fun _ => 0) (fun _ => 0) 0 1
        739806647 123456789 (0 + 1) = .ok l ∧
        l.get? 0 = some z ∧ z.finite = false) ∧
    (∀ v ∈ [FVal.fin 0], v.finite = true) :=
  normal_feeds_zero_to_log_no_resample (fun _ => 0) (fun _ => 0) (fun _ => 0)
    (fun _ => 0) 0 1 1 123456789 123456789 0 1 [FVal.fin 0]
    (by norm_num [pseudo_exp, pseudo_uniform, pseudo_uniform_good,
      List.range_succ, lcg_seq, lcg_step, GOOD_MULT, GOOD_MOD, npLog,
      FVal.smul, Except.map])
